import Mathlib

/-!
Shallow embedding of the Azure DevOps Branch Name Autofill userscript
(canonical draft: the variant with punctuation-to-space substitution in
the formatter and the MutationObserver-based waiter).

Strings are modelled as Lean strings; the character-level pipeline works
on the underlying character list.  JavaScript regular-expression
character classes are translated to decidable predicates on code points:
the ECMAScript whitespace class for the sigma-s class, ASCII word
characters for the sigma-w class, ASCII digits for the sigma-d class.
-/

/-- ECMAScript whitespace / line-terminator set, as matched by the
s-class in JS regexes and removed by String.prototype.trim. -/
def isJsWhitespace (c : Char) : Bool :=
  c.toNat = 0x9 || c.toNat = 0xa || c.toNat = 0xb || c.toNat = 0xc ||
  c.toNat = 0xd || c.toNat = 0x20 || c.toNat = 0xa0 || c.toNat = 0x1680 ||
  (0x2000 ≤ c.toNat && c.toNat ≤ 0x200a) ||
  c.toNat = 0x2028 || c.toNat = 0x2029 || c.toNat = 0x202f ||
  c.toNat = 0x205f || c.toNat = 0x3000 || c.toNat = 0xfeff

/-- ECMAScript LineTerminator set: the characters not matched by the dot
in a JS regex without the s flag. -/
def isLineTerminatorChar (c : Char) : Bool :=
  c.toNat = 0xa || c.toNat = 0xd || c.toNat = 0x2028 || c.toNat = 0x2029

/-- ASCII alphanumeric: the class [a-zA-Z0-9]. -/
def isAlnumChar (c : Char) : Bool :=
  (97 ≤ c.toNat && c.toNat ≤ 122) || (65 ≤ c.toNat && c.toNat ≤ 90) ||
  (48 ≤ c.toNat && c.toNat ≤ 57)

/-- JS word character: the w-class [A-Za-z0-9_]. -/
def isWordChar (c : Char) : Bool :=
  isAlnumChar c || c.toNat = 0x5f

/-- ASCII digit: the d-class [0-9]. -/
def isDigitChar (c : Char) : Bool :=
  48 ≤ c.toNat && c.toNat ≤ 57

/-- The punctuation set of formatTitle's first replace:
the class with slash, backslash, pipe, colon, semicolon, underscore,
tilde, plus, ampersand, comma, greater-than. -/
def isPunctSep (c : Char) : Bool :=
  c.toNat = 0x2f || c.toNat = 0x5c || c.toNat = 0x7c || c.toNat = 0x3a ||
  c.toNat = 0x3b || c.toNat = 0x5f || c.toNat = 0x7e || c.toNat = 0x2b ||
  c.toNat = 0x26 || c.toNat = 0x2c || c.toNat = 0x3e

/-- Replace every maximal run of punctuation-separator characters by a
single space (the global replace of a one-or-more punctuation class with
a space).  The boolean argument records whether the previous character
belonged to a punctuation run, so that only the first character of a run
emits the space. -/
def substPunctAux : Bool → List Char → List Char
  | _, [] => []
  | inRun, c :: cs =>
    if isPunctSep c then
      if inRun then substPunctAux true cs else ' ' :: substPunctAux true cs
    else c :: substPunctAux false cs

/-- First stage of formatTitle: punctuation runs become single spaces. -/
def substPunct (l : List Char) : List Char := substPunctAux false l

/-- The characters kept by formatTitle's second replace (the complement
of the deleted class): alphanumerics, whitespace, hyphen. -/
def isKeptChar (c : Char) : Bool :=
  isAlnumChar c || isJsWhitespace c || c.toNat = 0x2d

/-- Second stage of formatTitle: delete every character outside
alphanumerics, whitespace and hyphen. -/
def stripSpecial (l : List Char) : List Char := l.filter isKeptChar

/-- Replace every maximal run of whitespace by a single space (the
global replace of one-or-more whitespace with a space). -/
def collapseWsAux : Bool → List Char → List Char
  | _, [] => []
  | inRun, c :: cs =>
    if isJsWhitespace c then
      if inRun then collapseWsAux true cs else ' ' :: collapseWsAux true cs
    else c :: collapseWsAux false cs

/-- Third stage of formatTitle: whitespace runs become single spaces. -/
def collapseWs (l : List Char) : List Char := collapseWsAux false l

/-- JS String.prototype.trim on a character list: drop whitespace from
both ends. -/
def jsTrimList (l : List Char) : List Char :=
  ((l.dropWhile isJsWhitespace).reverse.dropWhile isJsWhitespace).reverse

/-- JS String.prototype.trim. -/
def jsTrim (s : String) : String := String.mk (jsTrimList s.data)

/-- Separator class of formatTitle's split: whitespace or hyphen. -/
def isSepChar (c : Char) : Bool := isJsWhitespace c || c.toNat = 0x2d

/-- formatTitle's split on runs of space-or-hyphen followed by
filter(Boolean): splitting at every separator character and dropping the
empty fragments is extensionally the same as JS split on a one-or-more
separator class followed by removal of empty strings. -/
def splitWords (l : List Char) : List (List Char) :=
  (l.splitOnP isSepChar).filter (fun t => !t.isEmpty)

/-- formatTitle's map step: charAt(0).toUpperCase() + slice(1).  On the
empty word both charAt and slice give the empty string.  Char.toUpper
agrees with JS toUpperCase on every character that can reach this step
(only ASCII alphanumerics survive the earlier stages). -/
def upFirst : List Char → List Char
  | [] => []
  | c :: cs => c.toUpper :: cs

/-- formatTitle from the canonical draft: punctuation-to-space
substitution, then stripping, then whitespace collapsing, trim, split on
space-or-hyphen runs, drop empty words, capitalize the first character
of each word, join with hyphens. -/
def formatTitle (title : String) : String :=
  String.mk
    (List.intercalate ['-']
      ((splitWords (jsTrimList (collapseWs (stripSpecial (substPunct title.data))))).map upFirst))

/-- formatTitle from the other draft variant (strip-only: no
punctuation-to-space substitution), kept to compare the two orders. -/
def formatTitleDraft (title : String) : String :=
  String.mk
    (List.intercalate ['-']
      ((splitWords (jsTrimList (collapseWs (stripSpecial title.data)))).map upFirst))

/-- Branch prefix constant of the script. -/
def BRANCH_PREFIX : String := "feature/"

/-- buildBranchName: template literal prefix-id-hyphen-formatted-title. -/
def buildBranchName (id title : String) : String :=
  BRANCH_PREFIX ++ id ++ "-" ++ formatTitle title

/-!
Extractor: getWorkItemFromDialog locates the extensions region and the
first work-item link inside it, reads the link text, trims it, and
matches it against the anchored regex
start, word-run, whitespace-run, captured digit-run, colon, optional
whitespace, captured rest-of-line, end.
The DOM lookups are modelled by optional fields; the regex is modelled
by a direct left-to-right matcher.  Because the word, whitespace and
digit classes are pairwise disjoint at each boundary, the greedy match
of the first three pieces is forced; the only backtracking the real
engine can perform is between the optional-whitespace piece and the
dot-plus capture, which matchFreeText reproduces exactly.
-/

/-- The tail part of the regex after the colon: optional whitespace then
a nonempty dot-plus capture anchored at the end.  Greedy semantics: the
whitespace star first takes the maximal whitespace run; the dot-plus
capture must then cover the whole remainder, which succeeds exactly when
the remainder is nonempty and free of line terminators.  If the
remainder is empty the star backtracks one character, so the capture is
the final whitespace character provided it is not a line terminator. -/
def matchFreeText (r : List Char) : Option (List Char) :=
  let rest := r.dropWhile isJsWhitespace
  if rest.isEmpty then
    match r.getLast? with
    | none => none
    | some c => if isLineTerminatorChar c then none else some [c]
  else
    if rest.all (fun c => !isLineTerminatorChar c) then some rest else none

/-- The anchored match of the full pattern on an (already trimmed) text:
returns the two capture groups (digit run, free text) or none. -/
def matchWorkItemText (text : List Char) : Option (List Char × List Char) :=
  let w := text.takeWhile isWordChar
  let r1 := text.dropWhile isWordChar
  if w.isEmpty then none
  else
    let s := r1.takeWhile isJsWhitespace
    let r2 := r1.dropWhile isJsWhitespace
    if s.isEmpty then none
    else
      let d := r2.takeWhile isDigitChar
      let r3 := r2.dropWhile isDigitChar
      if d.isEmpty then none
      else
        match r3 with
        | c :: r4 =>
          if c = ':' then
            match matchFreeText r4 with
            | some g2 => some (d, g2)
            | none => none
          else none
        | [] => none

/-- The extracted payload: work-item identifier and title. -/
structure WorkItem where
  id : String
  title : String
deriving DecidableEq, Repr

/-- The extensions sub-region of the dialog: its observable content is
the text of the first work-item link, when such a link exists. -/
structure ExtensionsRegion where
  workItemLink : Option String
deriving DecidableEq, Repr

/-- The dialog root: its observable content is the extensions region,
when present. -/
structure Dialog where
  extensionsRegion : Option ExtensionsRegion
deriving DecidableEq, Repr

/-- getWorkItemFromDialog: region lookup, link lookup, trim the link
text, match the pattern, build the record with the trimmed title. -/
def getWorkItemFromDialog (dialog : Dialog) : Option WorkItem :=
  match dialog.extensionsRegion with
  | none => none
  | some region =>
    match region.workItemLink with
    | none => none
    | some linkText =>
      let text := jsTrimList linkText.data
      match matchWorkItemText text with
      | none => none
      | some (d, g2) => some ⟨String.mk d, String.mk (jsTrimList g2)⟩

/-!
Field Writer.  The branch-name input is modelled by its value and its
focus/selection state.  The copy-to-clipboard decoration is pure UI and
is not part of the modelled state.
-/

/-- The branch-name input element. -/
structure BranchInput where
  value : String
  focused : Bool
  selected : Bool
deriving DecidableEq, Repr

/-- setInputValue: the native-setter write plus the two synthetic
events; on the modelled state this is just the value update. -/
def setInputValue (input : BranchInput) (v : String) : BranchInput :=
  { input with value := v }

/-- fillBranchName: skip when the trimmed value is nonempty, otherwise
write the built branch name, then focus and select the input. -/
def fillBranchName (branchInput : BranchInput) (workItem : WorkItem) : BranchInput :=
  if jsTrim branchInput.value ≠ "" then branchInput
  else
    let withValue := setInputValue branchInput (buildBranchName workItem.id workItem.title)
    { withValue with focused := true, selected := true }

/-!
Nested-Content Waiter.  waitForWorkItem first attempts immediate
extraction; on success it fills and returns without creating the
observer or the timer (represented by a state with both retired and the
episode settled).  Otherwise it creates the settled flag (false), the
mutation observer (connected) and the timeout timer (pending).
Each call of waitForWorkItem and each callback dispatch also reports
whether fillBranchName (the extraction success path) was invoked.
-/

/-- The waiter timeout constant, in milliseconds. -/
def TIMEOUT_MS : Nat := 10000

/-- The per-episode waiter state: the settled flag, whether the
mutation observer is connected, whether the timeout callback is still
pending, and the branch input. -/
structure WaiterState where
  settled : Bool
  observerConnected : Bool
  timerPending : Bool
  input : BranchInput
deriving DecidableEq, Repr

/-- waitForWorkItem entry: immediate extraction attempt, else set up
observer and timer.  The boolean reports whether fillBranchName ran. -/
def waitForWorkItem (dialog : Dialog) (branchInput : BranchInput) :
    WaiterState × Bool :=
  match getWorkItemFromDialog dialog with
  | some workItem =>
    ({ settled := true, observerConnected := false, timerPending := false,
       input := fillBranchName branchInput workItem }, true)
  | none =>
    ({ settled := false, observerConnected := true, timerPending := true,
       input := branchInput }, false)

/-- One callback delivery to the episode: either the mutation observer
fires (with the dialog content at that moment) or the timeout fires.
Times are in milliseconds from episode start; the timer contract is that
a timerFire event carries a time at least TIMEOUT_MS. -/
inductive WaiterEvent where
  | mutation (dialog : Dialog) (time : Nat)
  | timerFire (time : Nat)
deriving DecidableEq, Repr

/-- One step of the episode.  A mutation callback is dispatched only
while the observer is connected (disconnect is synchronous); its body
first checks the settled flag, then retries extraction, and on success
sets the flag, disconnects the observer and fills — without touching
the timer.  The timeout callback consumes the pending timer; its body
checks the settled flag and, when unsettled, sets it and disconnects
the observer.  The boolean reports whether fillBranchName ran. -/
def waiterStep (st : WaiterState) (e : WaiterEvent) : WaiterState × Bool :=
  match e with
  | .mutation dialog _ =>
    if !st.observerConnected then (st, false)
    else if st.settled then (st, false)
    else
      match getWorkItemFromDialog dialog with
      | some wi =>
        ({ settled := true, observerConnected := false,
           timerPending := st.timerPending,
           input := fillBranchName st.input wi }, true)
      | none => (st, false)
  | .timerFire _ =>
    if !st.timerPending then (st, false)
    else if st.settled then ({ st with timerPending := false }, false)
    else
      ({ settled := true, observerConnected := false, timerPending := false,
         input := st.input }, false)

/-- Run an episode over a list of callback deliveries. -/
def waiterRun : WaiterState → List WaiterEvent → WaiterState
  | st, [] => st
  | st, e :: evs => waiterRun (waiterStep st e).1 evs

/-- Number of fillBranchName invocations over a list of deliveries. -/
def waiterFills : WaiterState → List WaiterEvent → Nat
  | _, [] => 0
  | st, e :: evs =>
    (if (waiterStep st e).2 then 1 else 0) + waiterFills (waiterStep st e).1 evs

/-!
Shared lemmas about the waiter state machine.
-/

/-- In a settled episode no callback body has any effect: no fill is
performed and the input is untouched (only the timer can be consumed). -/
theorem waiterStep_of_settled (st : WaiterState) (e : WaiterEvent) (h : st.settled = true) :
    (waiterStep st e).2 = false ∧ (waiterStep st e).1.settled = true ∧
    (waiterStep st e).1.input = st.input := by
  cases e with
  | mutation d t => cases hc : st.observerConnected <;> simp [waiterStep, hc, h]
  | timerFire t => cases hp : st.timerPending <;> simp [waiterStep, hp, h]

/-- A step that fills also settles the episode. -/
theorem waiterStep_settles_of_fill (st : WaiterState) (e : WaiterEvent)
    (h : (waiterStep st e).2 = true) : (waiterStep st e).1.settled = true := by
  cases e with
  | mutation d t =>
    cases hc : st.observerConnected
    · simp [waiterStep, hc] at h
    · cases hs : st.settled
      · cases hw : getWorkItemFromDialog d <;> simp [waiterStep, hc, hs, hw] at h ⊢
      · simp [waiterStep, hc, hs] at h
  | timerFire t =>
    cases hp : st.timerPending <;> cases hs : st.settled <;>
      simp [waiterStep, hp, hs] at h

/-- The settled flag is monotone. -/
theorem waiterStep_settled_mono (st : WaiterState) (e : WaiterEvent)
    (h : st.settled = true) : (waiterStep st e).1.settled = true :=
  (waiterStep_of_settled st e h).2.1

/-- No fill ever happens from a settled state. -/
theorem waiterFills_of_settled (st : WaiterState) (evs : List WaiterEvent)
    (h : st.settled = true) : waiterFills st evs = 0 := by
  induction evs generalizing st with
  | nil => rfl
  | cons e evs ih =>
    have h1 := waiterStep_of_settled st e h
    simp [waiterFills, h1.1, ih _ h1.2.1]

/-- A settled episode stays settled and its input never changes. -/
theorem waiterRun_of_settled (st : WaiterState) (evs : List WaiterEvent)
    (h : st.settled = true) :
    (waiterRun st evs).settled = true ∧ (waiterRun st evs).input = st.input := by
  induction evs generalizing st with
  | nil => exact ⟨h, rfl⟩
  | cons e evs ih =>
    have h1 := waiterStep_of_settled st e h
    have h2 := ih _ h1.2.1
    exact ⟨h2.1, h2.2.trans h1.2.2⟩

/-- Over any sequence of deliveries, at most one fill happens. -/
theorem waiterFills_le_one (st : WaiterState) (evs : List WaiterEvent) :
    waiterFills st evs ≤ 1 := by
  induction evs generalizing st with
  | nil => simp [waiterFills]
  | cons e evs ih =>
    by_cases hf : (waiterStep st e).2 = true
    · have hs := waiterStep_settles_of_fill st e hf
      simp [waiterFills, hf, waiterFills_of_settled _ _ hs]
    · simp only [waiterFills, Bool.not_eq_true] at hf ⊢
      simp [hf]
      exact ih _

/-- A mutation callback that finds no matching content is a no-op. -/
theorem waiterStep_mutation_none (st : WaiterState) (d : Dialog) (t : Nat)
    (h : getWorkItemFromDialog d = none) :
    waiterStep st (WaiterEvent.mutation d t) = (st, false) := by
  cases hc : st.observerConnected <;> cases hs : st.settled <;>
    simp [waiterStep, hc, hs, h]

/-- The timeout callback never fills. -/
theorem waiterStep_timer_no_fill (st : WaiterState) (t : Nat) :
    (waiterStep st (WaiterEvent.timerFire t)).2 = false := by
  cases hp : st.timerPending <;> cases hs : st.settled <;> simp [waiterStep, hp, hs]

/-- If no delivery carries matching content, no fill ever happens. -/
theorem waiterFills_no_match (st : WaiterState) (evs : List WaiterEvent)
    (h : ∀ d t, WaiterEvent.mutation d t ∈ evs → getWorkItemFromDialog d = none) :
    waiterFills st evs = 0 := by
  induction evs generalizing st with
  | nil => rfl
  | cons e evs ih =>
    have hrest : ∀ d t, WaiterEvent.mutation d t ∈ evs → getWorkItemFromDialog d = none :=
      fun d t hm => h d t (List.mem_cons_of_mem _ hm)
    cases e with
    | mutation d t =>
      have hd := h d t (List.mem_cons_self _ _)
      simp [waiterFills, waiterStep_mutation_none st d t hd, ih _ hrest]
    | timerFire t =>
      simp [waiterFills, waiterStep_timer_no_fill, ih _ hrest]

/-- Episode invariant: while unsettled the timer is still pending. -/
theorem waiterStep_inv (st : WaiterState) (e : WaiterEvent)
    (h : st.timerPending = true ∨ st.settled = true) :
    (waiterStep st e).1.timerPending = true ∨ (waiterStep st e).1.settled = true := by
  cases e with
  | mutation d t =>
    cases hc : st.observerConnected
    · simpa [waiterStep, hc] using h
    · cases hs : st.settled
      · cases hw : getWorkItemFromDialog d
        · simpa [waiterStep, hc, hs, hw] using h
        · simp [waiterStep, hc, hs, hw]
      · simp [waiterStep, hc, hs]
  | timerFire t =>
    rcases h with hp | hs
    · cases hs2 : st.settled <;> simp [waiterStep, hp, hs2]
    · cases hp2 : st.timerPending <;> simp [waiterStep, hp2, hs]

/-- Once a timeout delivery occurs, the episode is settled. -/
theorem waiterRun_settles_of_timer (st : WaiterState) (evs : List WaiterEvent)
    (hinv : st.timerPending = true ∨ st.settled = true)
    (hmem : ∃ t, WaiterEvent.timerFire t ∈ evs) :
    (waiterRun st evs).settled = true := by
  induction evs generalizing st with
  | nil => rcases hmem with ⟨t, ht⟩; cases ht
  | cons e evs ih =>
    rcases hmem with ⟨t, ht⟩
    rcases List.mem_cons.mp ht with he | ht2
    · subst he
      have hs : (waiterStep st (WaiterEvent.timerFire t)).1.settled = true := by
        rcases hinv with hp | hset
        · cases hs2 : st.settled
          · simp [waiterStep, hp, hs2]
          · exact waiterStep_settled_mono _ _ hs2
        · exact waiterStep_settled_mono _ _ hset
      simpa [waiterRun] using (waiterRun_of_settled _ evs hs).1
    · exact ih _ (waiterStep_inv st e hinv) ⟨t, ht2⟩

/-- The setTimeout contract for an episode trace: every timeout delivery
happens at or after the configured delay. -/
def timerContractOk (evs : List WaiterEvent) : Bool :=
  evs.all (fun e =>
    match e with
    | WaiterEvent.timerFire t => decide (TIMEOUT_MS ≤ t)
    | WaiterEvent.mutation _ _ => true)

/-- A trace in which the sub-region never produces matching content. -/
def noMatchingContent (evs : List WaiterEvent) : Bool :=
  evs.all (fun e =>
    match e with
    | WaiterEvent.mutation d _ => (getWorkItemFromDialog d).isNone
    | WaiterEvent.timerFire _ => true)

/-- C1: for every dialog episode handled by waitForWorkItem, at most one
successful resolution occurs — at most one invocation of fillBranchName
counting the immediate attempt and all callback deliveries; once the
episode is settled no later mutation callback performs a fill; and if
the sub-region never produces matching content then no fill ever occurs
and, once the timeout callback (delivered at or after the configured
TIMEOUT_MS = 10000 ms, per the setTimeout contract) runs, the episode is
settled. -/
theorem waiter_at_most_one_resolution (dialog : Dialog) (branchInput : BranchInput)
    (evs : List WaiterEvent) (htimer : timerContractOk evs = true) :
    TIMEOUT_MS = 10000
    ∧ ((if (waitForWorkItem dialog branchInput).2 then 1 else 0) +
        waiterFills (waitForWorkItem dialog branchInput).1 evs ≤ 1)
    ∧ (∀ evs1 evs2, evs = evs1 ++ evs2 →
        (waiterRun (waitForWorkItem dialog branchInput).1 evs1).settled = true →
        waiterFills (waiterRun (waitForWorkItem dialog branchInput).1 evs1) evs2 = 0)
    ∧ (getWorkItemFromDialog dialog = none → noMatchingContent evs = true →
        waiterFills (waitForWorkItem dialog branchInput).1 evs = 0
        ∧ ((∃ t, WaiterEvent.timerFire t ∈ evs) →
            (waiterRun (waitForWorkItem dialog branchInput).1 evs).settled = true
            ∧ ∃ t, WaiterEvent.timerFire t ∈ evs ∧ TIMEOUT_MS ≤ t)) := by
  refine ⟨rfl, ?_, ?_, ?_⟩
  · cases hw : getWorkItemFromDialog dialog with
    | some wi =>
      have hset : (waitForWorkItem dialog branchInput).1.settled = true := by
        simp [waitForWorkItem, hw]
      have : (waitForWorkItem dialog branchInput).2 = true := by
        simp [waitForWorkItem, hw]
      simp [this, waiterFills_of_settled _ _ hset]
    | none =>
      have : (waitForWorkItem dialog branchInput).2 = false := by
        simp [waitForWorkItem, hw]
      simp [this]
      exact waiterFills_le_one _ _
  · intro evs1 evs2 _ hset
    exact waiterFills_of_settled _ _ hset
  · intro h0 hnm
    have hforall : ∀ d t, WaiterEvent.mutation d t ∈ evs → getWorkItemFromDialog d = none := by
      intro d t hm
      have := List.all_eq_true.mp hnm _ hm
      simpa [Option.isNone_iff_eq_none] using this
    refine ⟨waiterFills_no_match _ _ hforall, ?_⟩
    rintro ⟨t, ht⟩
    have hinv : (waitForWorkItem dialog branchInput).1.timerPending = true ∨
        (waitForWorkItem dialog branchInput).1.settled = true := by
      simp [waitForWorkItem, h0]
    refine ⟨waiterRun_settles_of_timer _ _ hinv ⟨t, ht⟩, t, ht, ?_⟩
    have := List.all_eq_true.mp htimer _ ht
    simpa using this

/-- C1 witness. -/
theorem waiter_at_most_one_resolution_witness :
    (if (waitForWorkItem ⟨some ⟨none⟩⟩ ⟨"", false, false⟩).2 then 1 else 0) +
      waiterFills (waitForWorkItem ⟨some ⟨none⟩⟩ ⟨"", false, false⟩).1
        [WaiterEvent.mutation ⟨some ⟨some "Task 100: Add login page"⟩⟩ 500,
         WaiterEvent.timerFire 10000] ≤ 1 :=
  (waiter_at_most_one_resolution ⟨some ⟨none⟩⟩ ⟨"", false, false⟩
    [WaiterEvent.mutation ⟨some ⟨some "Task 100: Add login page"⟩⟩ 500,
     WaiterEvent.timerFire 10000] (by decide)).2.1

/-- C2 counterexample: after a successful-extraction settlement the
mutation subscription is disconnected but the pending timer is not
cancelled, so the two are not retired together. -/
theorem settle_timer_not_cancelled_cex :
    (waiterRun (waitForWorkItem ⟨some ⟨none⟩⟩ ⟨"", false, false⟩).1
        [WaiterEvent.mutation ⟨some ⟨some "Task 100: Add login page"⟩⟩ 500]).settled = true
    ∧ (waiterRun (waitForWorkItem ⟨some ⟨none⟩⟩ ⟨"", false, false⟩).1
        [WaiterEvent.mutation ⟨some ⟨some "Task 100: Add login page"⟩⟩ 500]).observerConnected
        = false
    ∧ (waiterRun (waitForWorkItem ⟨some ⟨none⟩⟩ ⟨"", false, false⟩).1
        [WaiterEvent.mutation ⟨some ⟨some "Task 100: Add login page"⟩⟩ 500]).timerPending
        = true := by
  decide

/-- C2 amended: settling an episode synchronously disconnects the active
mutation subscription in the same turn; the timeout path also consumes
the timer, but the successful-extraction path leaves the pending timer
uncancelled — the later timer callback is dispatched as a settled-flag
guarded no-op, so no settled episode ever fills again or changes the
input. -/
theorem settle_retires_subscription_amended (st : WaiterState) :
    (∀ d t wi, st.observerConnected = true → st.settled = false →
      getWorkItemFromDialog d = some wi →
      (waiterStep st (WaiterEvent.mutation d t)).1.settled = true
      ∧ (waiterStep st (WaiterEvent.mutation d t)).1.observerConnected = false
      ∧ (waiterStep st (WaiterEvent.mutation d t)).1.timerPending = st.timerPending)
    ∧ (∀ t, st.timerPending = true → st.settled = false →
      (waiterStep st (WaiterEvent.timerFire t)).1.settled = true
      ∧ (waiterStep st (WaiterEvent.timerFire t)).1.observerConnected = false
      ∧ (waiterStep st (WaiterEvent.timerFire t)).1.timerPending = false)
    ∧ (∀ e, st.settled = true →
      (waiterStep st e).2 = false ∧ (waiterStep st e).1.input = st.input) := by
  refine ⟨?_, ?_, ?_⟩
  · intro d t wi hc hs hw
    simp [waiterStep, hc, hs, hw]
  · intro t hp hs
    simp [waiterStep, hp, hs]
  · intro e hs
    exact ⟨(waiterStep_of_settled st e hs).1, (waiterStep_of_settled st e hs).2.2⟩

/-- C2 amended witness. -/
theorem settle_retires_subscription_amended_witness :
    (waiterStep ⟨false, true, true, ⟨"", false, false⟩⟩
        (WaiterEvent.mutation ⟨some ⟨some "Task 100: Add login page"⟩⟩ 500)).1.settled = true
    ∧ (waiterStep ⟨false, true, true, ⟨"", false, false⟩⟩
        (WaiterEvent.mutation ⟨some ⟨some "Task 100: Add login page"⟩⟩ 500)).1.observerConnected
        = false
    ∧ (waiterStep ⟨false, true, true, ⟨"", false, false⟩⟩
        (WaiterEvent.mutation ⟨some ⟨some "Task 100: Add login page"⟩⟩ 500)).1.timerPending
        = true :=
  (settle_retires_subscription_amended ⟨false, true, true, ⟨"", false, false⟩⟩).1
    ⟨some ⟨some "Task 100: Add login page"⟩⟩ 500 ⟨"100", "Add login page"⟩
    rfl rfl (by decide)

/-- Shared helper: the Writer skips a non-empty field. -/
theorem fillBranchName_skip (branchInput : BranchInput) (wi : WorkItem)
    (h : jsTrim branchInput.value ≠ "") : fillBranchName branchInput wi = branchInput := by
  simp [fillBranchName, h]

/-- C3: the Field Writer never overwrites a non-empty field — if the
trimmed value of the input is nonempty, fillBranchName leaves the input
unchanged; hence a second invocation after a first one that left the
field non-empty changes nothing. -/
theorem writer_never_overwrites (branchInput : BranchInput) (wi wi2 : WorkItem) :
    (jsTrim branchInput.value ≠ "" → fillBranchName branchInput wi = branchInput)
    ∧ (jsTrim (fillBranchName branchInput wi).value ≠ "" →
        fillBranchName (fillBranchName branchInput wi) wi2 = fillBranchName branchInput wi) :=
  ⟨fillBranchName_skip branchInput wi, fillBranchName_skip (fillBranchName branchInput wi) wi2⟩

/-- C3 witness. -/
theorem writer_never_overwrites_witness :
    fillBranchName ⟨"main", false, false⟩ ⟨"7", "hello"⟩ = ⟨"main", false, false⟩ :=
  (writer_never_overwrites ⟨"main", false, false⟩ ⟨"7", "hello"⟩ ⟨"8", "bye"⟩).1 (by decide)

/-- C7: if matching content is already present when the Waiter starts,
the episode settles immediately in the same turn — the input is filled,
no mutation subscription is created and no timer is pending. -/
theorem waiter_immediate_settle (dialog : Dialog) (branchInput : BranchInput) (wi : WorkItem)
    (h : getWorkItemFromDialog dialog = some wi) :
    (waitForWorkItem dialog branchInput).1 =
      { settled := true, observerConnected := false, timerPending := false,
        input := fillBranchName branchInput wi }
    ∧ (waitForWorkItem dialog branchInput).2 = true := by
  simp [waitForWorkItem, h]

/-- C7 witness. -/
theorem waiter_immediate_settle_witness :
    (waitForWorkItem ⟨some ⟨some "Task 100: Add login page"⟩⟩ ⟨"", false, false⟩).1 =
      { settled := true, observerConnected := false, timerPending := false,
        input := fillBranchName ⟨"", false, false⟩ ⟨"100", "Add login page"⟩ }
    ∧ (waitForWorkItem ⟨some ⟨some "Task 100: Add login page"⟩⟩ ⟨"", false, false⟩).2 = true :=
  waiter_immediate_settle ⟨some ⟨some "Task 100: Add login page"⟩⟩ ⟨"", false, false⟩
    ⟨"100", "Add login page"⟩ (by decide)

/-- C5: end-to-end — a dialog whose sub-region is initially empty and
whose branch-name field is empty, after a mutation delivering the link
text Task 100 colon Add login page, ends with the field holding
feature/100-Add-Login-Page (which is buildBranchName of 100 and
Add login page) with focus and selection, and a second mutation
delivering another link leaves the whole state unchanged. -/
theorem end_to_end_scenario :
    buildBranchName "100" "Add login page" = "feature/100-Add-Login-Page"
    ∧ (waiterRun (waitForWorkItem ⟨some ⟨none⟩⟩ ⟨"", false, false⟩).1
        [WaiterEvent.mutation ⟨some ⟨some "Task 100: Add login page"⟩⟩ 500]).input =
        ⟨"feature/100-Add-Login-Page", true, true⟩
    ∧ waiterRun (waitForWorkItem ⟨some ⟨none⟩⟩ ⟨"", false, false⟩).1
        [WaiterEvent.mutation ⟨some ⟨some "Task 100: Add login page"⟩⟩ 500,
         WaiterEvent.mutation ⟨some ⟨some "Bug 999: Another item"⟩⟩ 800] =
      waiterRun (waitForWorkItem ⟨some ⟨none⟩⟩ ⟨"", false, false⟩).1
        [WaiterEvent.mutation ⟨some ⟨some "Task 100: Add login page"⟩⟩ 500] := by
  decide

/-!
Shared lemmas about the formatter.
-/

/-- Whitespace is never a punctuation separator. -/
theorem ws_not_punct (c : Char) (h : isJsWhitespace c = true) : isPunctSep c = false := by
  simp [isJsWhitespace] at h
  simp [isPunctSep]
  omega

/-- Punctuation substitution is the identity on punctuation-free text. -/
theorem substPunctAux_of_no_punct (b : Bool) (l : List Char)
    (h : ∀ c ∈ l, isPunctSep c = false) : substPunctAux b l = l := by
  induction l generalizing b with
  | nil => rfl
  | cons c cs ih =>
    have hc := h c (List.mem_cons_self _ _)
    simp [substPunctAux, hc, ih false (fun x hx => h x (List.mem_cons_of_mem _ hx))]

/-- Inside a whitespace run nothing further is emitted. -/
theorem collapseWsAux_true_of_all_ws (l : List Char)
    (h : ∀ c ∈ l, isJsWhitespace c = true) : collapseWsAux true l = [] := by
  induction l with
  | nil => rfl
  | cons c cs ih =>
    simp [collapseWsAux, h c (List.mem_cons_self _ _),
      ih (fun x hx => h x (List.mem_cons_of_mem _ hx))]

/-- Collapsing an all-whitespace text yields at most one space. -/
theorem collapseWs_of_all_ws (l : List Char) (h : ∀ c ∈ l, isJsWhitespace c = true) :
    collapseWs l = if l.isEmpty then [] else [' '] := by
  cases l with
  | nil => rfl
  | cons c cs =>
    simp [collapseWs, collapseWsAux, h c (List.mem_cons_self _ _),
      collapseWsAux_true_of_all_ws cs (fun x hx => h x (List.mem_cons_of_mem _ hx))]

/-- The formatter sends every all-whitespace (or empty) title to the
empty string. -/
theorem formatTitle_ws_only (title : String) (h : title.data.all isJsWhitespace = true) :
    formatTitle title = "" := by
  have hall : ∀ c ∈ title.data, isJsWhitespace c = true := fun c hc =>
    List.all_eq_true.mp h c hc
  have hkeep : ∀ c ∈ title.data, isKeptChar c = true := by
    intro c hc
    simp [isKeptChar, hall c hc]
  simp only [formatTitle, substPunct,
    substPunctAux_of_no_punct false _ (fun c hc => ws_not_punct c (hall c hc)),
    stripSpecial, List.filter_eq_self.mpr hkeep, collapseWs_of_all_ws _ hall]
  cases title.data with
  | nil => rfl
  | cons c cs => rfl

/-- C4: the canonical formatter performs punctuation-to-space
substitution first and character stripping second, maps
hello world example to Hello-World-Example and
Fix colon login slash logout bug bang bang to Fix-Login-Logout-Bug,
differs on the second literal from the draft variant that strips first,
and sends every empty or whitespace-only input to the empty string. -/
theorem formatTitle_order_and_literals :
    (∀ title : String, formatTitle title =
      String.mk (List.intercalate ['-']
        ((splitWords (jsTrimList (collapseWs (stripSpecial (substPunct title.data))))).map
          upFirst)))
    ∧ formatTitle "hello world example" = "Hello-World-Example"
    ∧ formatTitle "Fix: login/logout   bug!!" = "Fix-Login-Logout-Bug"
    ∧ formatTitleDraft "Fix: login/logout   bug!!" ≠ formatTitle "Fix: login/logout   bug!!"
    ∧ (∀ title : String, title.data.all isJsWhitespace = true → formatTitle title = "") :=
  ⟨fun _ => rfl, by decide, by decide, by decide, fun t h => formatTitle_ws_only t h⟩

/-- C4 witness. -/
theorem formatTitle_order_and_literals_witness : formatTitle "\t \n" = "" :=
  formatTitle_order_and_literals.2.2.2.2 "\t \n" (by decide)

/-- C10: when the formatted title is empty, buildBranchName still emits
the prefix, the id and the unconditional trailing hyphen, and that exact
value is what the Writer puts into an empty field. -/
theorem buildBranchName_empty_suffix (id title : String)
    (h : formatTitle title = "") :
    buildBranchName id title = BRANCH_PREFIX ++ id ++ "-"
    ∧ ∀ input : BranchInput, jsTrim input.value = "" →
        (fillBranchName input ⟨id, title⟩).value = BRANCH_PREFIX ++ id ++ "-" := by
  have h1 : buildBranchName id title = BRANCH_PREFIX ++ id ++ "-" := by
    simp [buildBranchName, h]
  refine ⟨h1, ?_⟩
  intro input hinp
  simp [fillBranchName, hinp, setInputValue, h1]

/-- C10 witness. -/
theorem buildBranchName_empty_suffix_witness :
    buildBranchName "123" "!!!" = "feature/123-" :=
  (buildBranchName_empty_suffix "123" "!!!" (by decide)).1

/-!
Character-level lemmas for the formatter invariants.
-/

/-- Characters are determined by their code points. -/
theorem char_eq_of_toNat_eq {a b : Char} (h : a.toNat = b.toNat) : a = b :=
  Char.ext (UInt32.toNat.inj h)

/-- Code point of Char.ofNat on a small valid code point. -/
theorem toNat_charOfNat_of_lt {n : Nat} (h : n < 0xd800) : (Char.ofNat n).toNat = n := by
  rw [Char.ofNat, dif_pos (Or.inl h)]
  rfl

/-- Code point of Char.toUpper. -/
theorem toUpper_toNat (c : Char) :
    (Char.toUpper c).toNat =
      if 97 ≤ c.toNat ∧ c.toNat ≤ 122 then c.toNat - 32 else c.toNat := by
  simp only [Char.toUpper]
  split
  · rename_i h
    exact toNat_charOfNat_of_lt (by omega)
  · rfl

/-- Char.toUpper preserves ASCII alphanumerics. -/
theorem isAlnumChar_toUpper (c : Char) (h : isAlnumChar c = true) :
    isAlnumChar c.toUpper = true := by
  have ht := toUpper_toNat c
  simp only [isAlnumChar, Bool.or_eq_true, Bool.and_eq_true, decide_eq_true_eq] at h ⊢
  split at ht <;> omega

/-- Char.toUpper is idempotent. -/
theorem toUpper_idem (c : Char) : c.toUpper.toUpper = c.toUpper := by
  apply char_eq_of_toNat_eq
  have h1 := toUpper_toNat c
  have h2 := toUpper_toNat c.toUpper
  split at h1 <;> split at h2 <;> omega

/-- ASCII alphanumerics are not whitespace. -/
theorem alnum_not_ws (c : Char) (h : isAlnumChar c = true) : isJsWhitespace c = false := by
  simp [isAlnumChar] at h
  simp [isJsWhitespace]
  omega

/-- ASCII alphanumerics are not punctuation separators. -/
theorem alnum_not_punct (c : Char) (h : isAlnumChar c = true) : isPunctSep c = false := by
  simp [isAlnumChar] at h
  simp [isPunctSep]
  omega

/-- ASCII alphanumerics are not split separators. -/
theorem alnum_not_sep (c : Char) (h : isAlnumChar c = true) : isSepChar c = false := by
  simp [isAlnumChar] at h
  simp [isSepChar, isJsWhitespace]
  omega

/-- Punctuation substitution only emits characters of the input or
spaces. -/
theorem mem_substPunctAux (b : Bool) (l : List Char) (c : Char)
    (h : c ∈ substPunctAux b l) : c ∈ l ∨ c = ' ' := by
  induction l generalizing b with
  | nil => cases h
  | cons a cs ih =>
    by_cases hp : isPunctSep a = true
    · have h2 : c ∈ substPunctAux true cs ∨ c = ' ' := by
        cases b with
        | true => simp [substPunctAux, hp] at h; exact Or.inl h
        | false =>
          simp [substPunctAux, hp] at h
          rcases h with h | h
          · exact Or.inr h
          · exact Or.inl h
      rcases h2 with h2 | h2
      · rcases ih true h2 with h3 | h3
        · exact Or.inl (List.mem_cons_of_mem _ h3)
        · exact Or.inr h3
      · exact Or.inr h2
    · simp [substPunctAux, hp] at h
      rcases h with h | h
      · exact Or.inl (by rw [h]; exact List.mem_cons_self _ _)
      · rcases ih false h with h3 | h3
        · exact Or.inl (List.mem_cons_of_mem _ h3)
        · exact Or.inr h3

/-- Whitespace collapsing only emits characters of the input or
spaces. -/
theorem mem_collapseWsAux (b : Bool) (l : List Char) (c : Char)
    (h : c ∈ collapseWsAux b l) : c ∈ l ∨ c = ' ' := by
  induction l generalizing b with
  | nil => cases h
  | cons a cs ih =>
    by_cases hw : isJsWhitespace a = true
    · have h2 : c ∈ collapseWsAux true cs ∨ c = ' ' := by
        cases b with
        | true => simp [collapseWsAux, hw] at h; exact Or.inl h
        | false =>
          simp [collapseWsAux, hw] at h
          rcases h with h | h
          · exact Or.inr h
          · exact Or.inl h
      rcases h2 with h2 | h2
      · rcases ih true h2 with h3 | h3
        · exact Or.inl (List.mem_cons_of_mem _ h3)
        · exact Or.inr h3
      · exact Or.inr h2
    · simp [collapseWsAux, hw] at h
      rcases h with h | h
      · exact Or.inl (by rw [h]; exact List.mem_cons_self _ _)
      · rcases ih false h with h3 | h3
        · exact Or.inl (List.mem_cons_of_mem _ h3)
        · exact Or.inr h3

/-- Trimming only removes characters. -/
theorem mem_jsTrimList (l : List Char) (c : Char) (h : c ∈ jsTrimList l) : c ∈ l := by
  unfold jsTrimList at h
  rw [List.mem_reverse] at h
  have h2 := List.dropWhile_subset _ h
  rw [List.mem_reverse] at h2
  exact List.dropWhile_subset _ h2

/-- Fragments produced by splitOnP contain only non-separator
characters of the input. -/
theorem mem_of_mem_splitOnP {p : Char → Bool} {l t : List Char} (ht : t ∈ l.splitOnP p)
    {c : Char} (hc : c ∈ t) : c ∈ l ∧ p c = false := by
  induction l generalizing t with
  | nil =>
    rw [List.splitOnP_nil, List.mem_singleton] at ht
    subst ht
    cases hc
  | cons x xs ih =>
    rw [List.splitOnP_cons] at ht
    by_cases hx : p x
    · rw [if_pos hx, List.mem_cons] at ht
      rcases ht with ht1 | ht2
      · subst ht1; cases hc
      · have h2 := ih ht2 hc
        exact ⟨List.mem_cons_of_mem _ h2.1, h2.2⟩
    · rw [if_neg hx] at ht
      cases hsp : xs.splitOnP p with
      | nil => exact absurd hsp (List.splitOnP_ne_nil _ _)
      | cons hd tl =>
        rw [hsp, List.modifyHead_cons, List.mem_cons] at ht
        rcases ht with ht1 | ht2
        · subst ht1
          rcases List.mem_cons.mp hc with hcx | hc2
          · refine ⟨by rw [hcx]; exact List.mem_cons_self _ _, ?_⟩
            rw [hcx]
            simpa using hx
          · have h2 := ih (by rw [hsp]; exact List.mem_cons_self _ _) hc2
            exact ⟨List.mem_cons_of_mem _ h2.1, h2.2⟩
        · have h2 := ih (by rw [hsp]; exact List.mem_cons_of_mem _ ht2) hc
          exact ⟨List.mem_cons_of_mem _ h2.1, h2.2⟩

/-- Words produced by splitWords are nonempty and consist of
non-separator characters of the input. -/
theorem splitWords_token_chars (l t : List Char) (ht : t ∈ splitWords l) :
    t.isEmpty = false ∧ ∀ c ∈ t, c ∈ l ∧ isSepChar c = false := by
  have h1 := List.mem_filter.mp ht
  refine ⟨by simpa using h1.2, fun c hc => mem_of_mem_splitOnP h1.1 hc⟩

/-- Capitalization preserves all-alphanumeric words. -/
theorem upFirst_all_alnum (t : List Char) (h : ∀ c ∈ t, isAlnumChar c = true) :
    ∀ c ∈ upFirst t, isAlnumChar c = true := by
  cases t with
  | nil => intro c hc; cases hc
  | cons a as =>
    intro c hc
    rcases List.mem_cons.mp hc with rfl | hc2
    · exact isAlnumChar_toUpper a (h a (List.mem_cons_self _ _))
    · exact h c (List.mem_cons_of_mem _ hc2)

/-- The words reaching the final join of the formatter are nonempty and
all-alphanumeric. -/
theorem pipeline_tokens_alnum (s : String) :
    ∀ t ∈ (splitWords (jsTrimList (collapseWs (stripSpecial (substPunct s.data))))).map upFirst,
      t.isEmpty = false ∧ ∀ c ∈ t, isAlnumChar c = true := by
  intro t ht
  rcases List.mem_map.mp ht with ⟨t0, ht0, rfl⟩
  have hfact := splitWords_token_chars _ _ ht0
  have halnum : ∀ c ∈ t0, isAlnumChar c = true := by
    intro c hc
    have h1 := (hfact.2 c hc).1
    have h2 := (hfact.2 c hc).2
    have h3 : c ∈ collapseWs (stripSpecial (substPunct s.data)) := mem_jsTrimList _ _ h1
    have h2b : isJsWhitespace c = false ∧ ¬(c.toNat = 45) := by
      simpa [isSepChar] using h2
    rcases mem_collapseWsAux _ _ _ h3 with h4 | hspace
    · have h5 := (List.mem_filter.mp h4).2
      simp only [isKeptChar, Bool.or_eq_true, decide_eq_true_eq] at h5
      rcases h5 with (h5 | h5) | h5
      · exact h5
      · rw [h2b.1] at h5
        cases h5
      · exact absurd h5 h2b.2
    · rw [hspace] at h2
      exact absurd h2 (by decide)
  constructor
  · cases t0 with
    | nil => simpa using hfact.1
    | cons a as => rfl
  · exact upFirst_all_alnum t0 halnum

/-- Join of two or more words. -/
theorem intercalate_hyphen_cons2 (a b : List Char) (l : List (List Char)) :
    List.intercalate ['-'] (a :: b :: l) = a ++ '-' :: List.intercalate ['-'] (b :: l) := by
  simp [List.intercalate, List.intersperse_cons₂]

/-- Characters of a hyphen join come from the words or are hyphens. -/
theorem mem_intercalate_hyphen (ts : List (List Char)) (c : Char)
    (h : c ∈ List.intercalate ['-'] ts) : c = '-' ∨ ∃ t ∈ ts, c ∈ t := by
  induction ts with
  | nil => simp [List.intercalate] at h
  | cons t ts ih =>
    cases ts with
    | nil =>
      simp only [List.intercalate, List.intersperse_single, List.flatten,
        List.append_nil] at h
      exact Or.inr ⟨t, List.mem_cons_self _ _, h⟩
    | cons t2 ts2 =>
      rw [intercalate_hyphen_cons2] at h
      rcases List.mem_append.mp h with h1 | h1
      · exact Or.inr ⟨t, List.mem_cons_self _ _, h1⟩
      · rcases List.mem_cons.mp h1 with h2 | h2
        · exact Or.inl h2
        · rcases ih h2 with h3 | ⟨u, hu, hcu⟩
          · exact Or.inl h3
          · exact Or.inr ⟨u, List.mem_cons_of_mem _ hu, hcu⟩

/-- Every character of a formatter output is alphanumeric or a
hyphen. -/
theorem formatTitle_data_chars (s : String) (c : Char) (h : c ∈ (formatTitle s).data) :
    isAlnumChar c = true ∨ c = '-' := by
  rcases mem_intercalate_hyphen _ c h with h1 | ⟨t, ht, hct⟩
  · exact Or.inr h1
  · exact Or.inl ((pipeline_tokens_alnum s t ht).2 c hct)

/-- C8: for every input, the formatter output contains only ASCII
alphanumeric characters and hyphens — no whitespace, punctuation or
other characters. -/
theorem formatTitle_output_alnum_hyphen (s : String) :
    (formatTitle s).data.all (fun c => isAlnumChar c || decide (c = '-')) = true := by
  rw [List.all_eq_true]
  intro c hc
  rcases formatTitle_data_chars s c hc with h | h <;> simp [h]

/-- dropWhile is the identity when no element satisfies the predicate. -/
theorem dropWhile_eq_self_of_all {p : Char → Bool} (l : List Char)
    (h : ∀ c ∈ l, p c = false) : l.dropWhile p = l := by
  cases l with
  | nil => rfl
  | cons a as => simp [List.dropWhile_cons, h a (List.mem_cons_self _ _)]

/-- Trimming is the identity on whitespace-free text. -/
theorem jsTrimList_eq_self_of_no_ws (l : List Char)
    (h : ∀ c ∈ l, isJsWhitespace c = false) : jsTrimList l = l := by
  unfold jsTrimList
  rw [dropWhile_eq_self_of_all l h,
    dropWhile_eq_self_of_all l.reverse (fun c hc => h c (List.mem_reverse.mp hc)),
    List.reverse_reverse]

/-- Whitespace collapsing is the identity on whitespace-free text. -/
theorem collapseWsAux_eq_self_of_no_ws (b : Bool) (l : List Char)
    (h : ∀ c ∈ l, isJsWhitespace c = false) : collapseWsAux b l = l := by
  induction l generalizing b with
  | nil => rfl
  | cons a as ih =>
    simp [collapseWsAux, h a (List.mem_cons_self _ _),
      ih false (fun c hc => h c (List.mem_cons_of_mem _ hc))]

/-- Splitting a hyphen join of nonempty separator-free words recovers
exactly the words. -/
theorem splitWords_intercalate (ts : List (List Char))
    (hne : ∀ t ∈ ts, t.isEmpty = false)
    (hsep : ∀ t ∈ ts, ∀ c ∈ t, isSepChar c = false) :
    splitWords (List.intercalate ['-'] ts) = ts := by
  induction ts with
  | nil => rfl
  | cons t ts ih =>
    have hnot : ∀ x ∈ t, ¬ isSepChar x = true := by
      intro x hx
      simp [hsep t (List.mem_cons_self _ _) x hx]
    cases ts with
    | nil =>
      have h1 : List.intercalate ['-'] [t] = t := by simp [List.intercalate]
      rw [h1]
      unfold splitWords
      rw [List.splitOnP_eq_single _ _ hnot]
      simp [List.filter, hne t (List.mem_cons_self _ _)]
    | cons t2 ts2 =>
      rw [intercalate_hyphen_cons2]
      have ih2 := ih (fun u hu => hne u (List.mem_cons_of_mem _ hu))
        (fun u hu => hsep u (List.mem_cons_of_mem _ hu))
      unfold splitWords at ih2 ⊢
      rw [List.splitOnP_first _ _ hnot '-' (by decide)]
      simp [List.filter_cons, hne t (List.mem_cons_self _ _), ih2]

/-- Capitalization is idempotent on words. -/
theorem upFirst_idem (t : List Char) : upFirst (upFirst t) = upFirst t := by
  cases t with
  | nil => rfl
  | cons a as => simp [upFirst, toUpper_idem]

/-- On a hyphen join of clean words, the formatter only re-capitalizes
the words. -/
theorem formatTitle_of_clean_tokens (ts : List (List Char))
    (hne : ∀ t ∈ ts, t.isEmpty = false)
    (halnum : ∀ t ∈ ts, ∀ c ∈ t, isAlnumChar c = true) :
    formatTitle (String.mk (List.intercalate ['-'] ts)) =
      String.mk (List.intercalate ['-'] (ts.map upFirst)) := by
  have hchars : ∀ c ∈ List.intercalate ['-'] ts, isAlnumChar c = true ∨ c = '-' := by
    intro c hc
    rcases mem_intercalate_hyphen ts c hc with h | ⟨t, ht, hct⟩
    · exact Or.inr h
    · exact Or.inl (halnum t ht c hct)
  have hnopunct : ∀ c ∈ List.intercalate ['-'] ts, isPunctSep c = false := by
    intro c hc
    rcases hchars c hc with h | h
    · exact alnum_not_punct c h
    · rw [h]; decide
  have hnows : ∀ c ∈ List.intercalate ['-'] ts, isJsWhitespace c = false := by
    intro c hc
    rcases hchars c hc with h | h
    · exact alnum_not_ws c h
    · rw [h]; decide
  have hkept : ∀ c ∈ List.intercalate ['-'] ts, isKeptChar c = true := by
    intro c hc
    rcases hchars c hc with h | h
    · simp [isKeptChar, h]
    · rw [h]; decide
  have hsepfree : ∀ t ∈ ts, ∀ c ∈ t, isSepChar c = false :=
    fun t ht c hc => alnum_not_sep c (halnum t ht c hc)
  have hdata : (String.mk (List.intercalate ['-'] ts)).data = List.intercalate ['-'] ts := rfl
  unfold formatTitle substPunct stripSpecial collapseWs
  rw [hdata, substPunctAux_of_no_punct false _ hnopunct,
    List.filter_eq_self.mpr hkept,
    collapseWsAux_eq_self_of_no_ws false _ hnows,
    jsTrimList_eq_self_of_no_ws _ hnows,
    splitWords_intercalate ts hne hsepfree]

/-- C9: the formatter is idempotent on its own outputs. -/
theorem formatTitle_idempotent (s : String) :
    formatTitle (formatTitle s) = formatTitle s := by
  have htok := pipeline_tokens_alnum s
  have h1 : formatTitle s =
      String.mk (List.intercalate ['-']
        ((splitWords (jsTrimList (collapseWs (stripSpecial (substPunct s.data))))).map
          upFirst)) := rfl
  rw [h1, formatTitle_of_clean_tokens _ (fun t ht => (htok t ht).1)
    (fun t ht => (htok t ht).2)]
  have h2 : ((splitWords (jsTrimList (collapseWs (stripSpecial (substPunct s.data))))).map
      upFirst).map upFirst =
      (splitWords (jsTrimList (collapseWs (stripSpecial (substPunct s.data))))).map upFirst := by
    rw [List.map_map]
    exact List.map_congr_left (fun t _ => upFirst_idem t)
  rw [h2]

/-!
Lemmas for the extractor characterization.
-/

/-- Whitespace characters are not word characters. -/
theorem ws_not_word (c : Char) (h : isJsWhitespace c = true) : isWordChar c = false := by
  simp [isJsWhitespace] at h
  simp [isWordChar, isAlnumChar]
  omega

/-- Digits are not whitespace. -/
theorem digit_not_ws (c : Char) (h : isDigitChar c = true) : isJsWhitespace c = false := by
  simp [isDigitChar] at h
  simp [isJsWhitespace]
  omega

/-- span of a concatenation whose left part satisfies the predicate and
whose right part starts with a failing character. -/
theorem takeWhile_append_stop {p : Char → Bool} (xs ys : List Char)
    (hxs : ∀ c ∈ xs, p c = true)
    (hys : ∀ c, ys.head? = some c → p c = false) :
    (xs ++ ys).takeWhile p = xs ∧ (xs ++ ys).dropWhile p = ys := by
  induction xs with
  | nil =>
    simp only [List.nil_append]
    cases ys with
    | nil => exact ⟨rfl, rfl⟩
    | cons a as =>
      have := hys a rfl
      simp [List.takeWhile_cons, List.dropWhile_cons, this]
  | cons x xs ih =>
    have hx := hxs x (List.mem_cons_self _ _)
    have ih2 := ih (fun c hc => hxs c (List.mem_cons_of_mem _ hc))
    simp [List.takeWhile_cons, List.dropWhile_cons, hx, ih2.1, ih2.2]

/-- dropWhile over a concatenation whose left part satisfies the
predicate. -/
theorem dropWhile_append_all {p : Char → Bool} (xs ys : List Char)
    (hxs : ∀ c ∈ xs, p c = true) :
    (xs ++ ys).dropWhile p = ys.dropWhile p := by
  induction xs with
  | nil => rfl
  | cons x xs ih =>
    have hx := hxs x (List.mem_cons_self _ _)
    simp [List.dropWhile_cons, hx, ih (fun c hc => hxs c (List.mem_cons_of_mem _ hc))]

/-- dropWhile is idempotent. -/
theorem dropWhile_self_idem {p : Char → Bool} (l : List Char) :
    (l.dropWhile p).dropWhile p = l.dropWhile p := by
  induction l with
  | nil => rfl
  | cons a as ih =>
    by_cases h : p a = true
    · simp [List.dropWhile_cons, h, ih]
    · simp [List.dropWhile_cons, h]

/-- Trimming ignores an initial whitespace run. -/
theorem jsTrimList_dropWhile (l : List Char) :
    jsTrimList (l.dropWhile isJsWhitespace) = jsTrimList l := by
  unfold jsTrimList
  rw [dropWhile_self_idem]

/-- Trimming an all-whitespace text yields the empty text. -/
theorem jsTrimList_of_all_ws (l : List Char) (h : ∀ c ∈ l, isJsWhitespace c = true) :
    jsTrimList l = [] := by
  unfold jsTrimList
  rw [List.dropWhile_eq_nil_iff.mpr (fun x hx => h x hx)]
  rfl

/-- Successful tail matches decompose the tail into an optional
whitespace run followed by the nonempty, line-terminator-free capture,
and the capture trims to the same text as the whole tail after the
leading whitespace. -/
theorem matchFreeText_some (r4 g : List Char) (h : matchFreeText r4 = some g) :
    ∃ ows, r4 = ows ++ g ∧ (∀ c ∈ ows, isJsWhitespace c = true) ∧ g ≠ [] ∧
      (∀ c ∈ g, isLineTerminatorChar c = false) ∧ jsTrimList g = jsTrimList r4 := by
  unfold matchFreeText at h
  by_cases hrest : (r4.dropWhile isJsWhitespace).isEmpty = true
  · rw [if_pos hrest] at h
    have hallws : ∀ c ∈ r4, isJsWhitespace c = true := by
      have h0 := List.isEmpty_iff.mp hrest
      intro c hc
      exact List.dropWhile_eq_nil_iff.mp h0 c hc
    cases hlast : r4.getLast? with
    | none => rw [hlast] at h; cases h
    | some c =>
      rw [hlast] at h
      by_cases hlt : isLineTerminatorChar c = true
      · simp [hlt] at h
      · simp only [hlt, Bool.false_eq_true, if_false, Option.some.injEq] at h
        subst h
        obtain ⟨ys, hys⟩ := List.getLast?_eq_some_iff.mp hlast
        refine ⟨ys, hys, ?_, by simp, ?_, ?_⟩
        · intro x hx
          exact hallws x (by rw [hys]; exact List.mem_append_left _ hx)
        · intro x hx
          rw [List.mem_singleton.mp hx]
          simpa using hlt
        · rw [jsTrimList_of_all_ws r4 hallws, jsTrimList_of_all_ws]
          intro x hx
          rw [List.mem_singleton.mp hx]
          exact hallws c (List.mem_of_getLast?_eq_some hlast)
  · rw [if_neg hrest] at h
    by_cases hall : (r4.dropWhile isJsWhitespace).all (fun c => !isLineTerminatorChar c) = true
    · rw [if_pos hall] at h
      have hg : g = r4.dropWhile isJsWhitespace := by
        injection h with h2
        exact h2.symm
      subst hg
      refine ⟨r4.takeWhile isJsWhitespace, (List.takeWhile_append_dropWhile _ _).symm, ?_,
        by simpa using hrest, ?_, jsTrimList_dropWhile r4⟩
      · exact fun x hx => List.mem_takeWhile_imp hx
      · intro x hx
        have := List.all_eq_true.mp hall x hx
        simpa using this
    · rw [if_neg hall] at h
      cases h

/-- The tail matcher succeeds on an optional whitespace run followed by
nonempty line-terminator-free free text, and the capture trims to the
same text as the free text. -/
theorem matchFreeText_append_ws (ows ft : List Char)
    (hows : ∀ c ∈ ows, isJsWhitespace c = true)
    (hft : ft ≠ []) (hftlt : ∀ c ∈ ft, isLineTerminatorChar c = false) :
    ∃ g, matchFreeText (ows ++ ft) = some g ∧ jsTrimList g = jsTrimList ft := by
  have hdw : (ows ++ ft).dropWhile isJsWhitespace = ft.dropWhile isJsWhitespace :=
    dropWhile_append_all ows ft hows
  unfold matchFreeText
  rw [hdw]
  by_cases hr : (ft.dropWhile isJsWhitespace).isEmpty = true
  · have hftws : ∀ c ∈ ft, isJsWhitespace c = true := by
      have h0 := List.isEmpty_iff.mp hr
      intro c hc
      exact List.dropWhile_eq_nil_iff.mp h0 c hc
    rw [if_pos hr]
    cases hlast : ft.getLast? with
    | none =>
      rw [List.getLast?_eq_none_iff] at hlast
      exact absurd hlast hft
    | some c =>
      have hlast2 : (ows ++ ft).getLast? = some c := by
        rw [List.getLast?_append, hlast]
        rfl
      rw [hlast2]
      have hc : isLineTerminatorChar c = false :=
        hftlt c (List.mem_of_getLast?_eq_some hlast)
      refine ⟨[c], by simp [hc], ?_⟩
      rw [jsTrimList_of_all_ws ft hftws, jsTrimList_of_all_ws]
      intro x hx
      rw [List.mem_singleton.mp hx]
      exact hftws c (List.mem_of_getLast?_eq_some hlast)
  · rw [if_neg hr]
    have hall : (ft.dropWhile isJsWhitespace).all (fun c => !isLineTerminatorChar c) = true := by
      rw [List.all_eq_true]
      intro x hx
      have := hftlt x (List.dropWhile_subset _ hx)
      simp [this]
    rw [if_pos hall]
    exact ⟨_, rfl, jsTrimList_dropWhile ft⟩

/-- The spec's matching rule, stated from its words: the text splits as
word-token, whitespace, digit run, colon, optional whitespace, free
text, where the free text is nonempty and contains no line terminator
(the dot of the regex does not match line terminators and the match is
anchored at both ends). -/
def PatternDecomp (text d ft : List Char) : Prop :=
  ∃ w s ows, text = w ++ (s ++ (d ++ (':' :: (ows ++ ft))))
    ∧ w ≠ [] ∧ (∀ c ∈ w, isWordChar c = true)
    ∧ s ≠ [] ∧ (∀ c ∈ s, isJsWhitespace c = true)
    ∧ d ≠ [] ∧ (∀ c ∈ d, isDigitChar c = true)
    ∧ (∀ c ∈ ows, isJsWhitespace c = true)
    ∧ ft ≠ [] ∧ (∀ c ∈ ft, isLineTerminatorChar c = false)

/-- Forward direction: a successful match produces a pattern
decomposition whose digit run is the returned identifier and whose free
text is the returned capture. -/
theorem matchWorkItemText_some (text d g2 : List Char)
    (hm : matchWorkItemText text = some (d, g2)) : PatternDecomp text d g2 := by
  unfold matchWorkItemText at hm
  by_cases h1 : (text.takeWhile isWordChar).isEmpty = true
  · simp [h1] at hm
  · simp only [h1, Bool.false_eq_true, if_false] at hm
    by_cases h2 : ((text.dropWhile isWordChar).takeWhile isJsWhitespace).isEmpty = true
    · simp [h2] at hm
    · simp only [h2, Bool.false_eq_true, if_false] at hm
      by_cases h3 :
          (((text.dropWhile isWordChar).dropWhile isJsWhitespace).takeWhile
            isDigitChar).isEmpty = true
      · simp [h3] at hm
      · simp only [h3, Bool.false_eq_true, if_false] at hm
        cases hr3 :
            ((text.dropWhile isWordChar).dropWhile isJsWhitespace).dropWhile isDigitChar with
        | nil => rw [hr3] at hm; cases hm
        | cons c0 r4 =>
          rw [hr3] at hm
          by_cases hc0 : c0 = ':'
          · subst hc0
            simp only [if_pos rfl] at hm
            cases hft : matchFreeText r4 with
            | none => rw [hft] at hm; cases hm
            | some g =>
              rw [hft] at hm
              have hm2 : (((text.dropWhile isWordChar).dropWhile isJsWhitespace).takeWhile
                  isDigitChar) = d ∧ g = g2 := by
                simpa using hm
              obtain ⟨hm2, hm3⟩ := hm2
              subst hm2
              subst hm3
              obtain ⟨ows, hr4, hows, hgne, hglt, _⟩ := matchFreeText_some r4 _ hft
              refine ⟨text.takeWhile isWordChar,
                (text.dropWhile isWordChar).takeWhile isJsWhitespace, ows, ?_, ?_, ?_, ?_, ?_,
                ?_, ?_, hows, hgne, hglt⟩
              · conv_lhs => rw [← List.takeWhile_append_dropWhile isWordChar text]
                congr 1
                conv_lhs => rw [← List.takeWhile_append_dropWhile isJsWhitespace
                  (text.dropWhile isWordChar)]
                congr 1
                conv_lhs => rw [← List.takeWhile_append_dropWhile isDigitChar
                  ((text.dropWhile isWordChar).dropWhile isJsWhitespace)]
                rw [hr3, hr4]
              · simpa using h1
              · exact fun c hc => List.mem_takeWhile_imp hc
              · simpa using h2
              · exact fun c hc => List.mem_takeWhile_imp hc
              · simpa using h3
              · exact fun c hc => List.mem_takeWhile_imp hc
          · simp only [if_neg hc0] at hm
            cases hm

/-- Backward direction: any pattern decomposition makes the match
succeed with the decomposition's digit run as identifier, and the
returned capture trims to the same label as the decomposition's free
text. -/
theorem matchWorkItemText_of_decomp (text d ft : List Char)
    (hpd : PatternDecomp text d ft) :
    ∃ g2, matchWorkItemText text = some (d, g2) ∧ jsTrimList g2 = jsTrimList ft := by
  obtain ⟨w, s, ows, htext, hwne, hwall, hsne, hsall, hdne, hdall, howall, hftne, hftlt⟩ := hpd
  subst htext
  have hshead : ∀ c, (s ++ (d ++ (':' :: (ows ++ ft)))).head? = some c → isWordChar c = false := by
    cases s with
    | nil => exact absurd rfl hsne
    | cons a as =>
      intro c hc
      simp only [List.cons_append, List.head?_cons, Option.some.injEq] at hc
      rw [← hc]
      exact ws_not_word a (hsall a (List.mem_cons_self _ _))
  have e1 := takeWhile_append_stop w (s ++ (d ++ (':' :: (ows ++ ft)))) hwall hshead
  have hdhead : ∀ c, (d ++ (':' :: (ows ++ ft))).head? = some c → isJsWhitespace c = false := by
    cases d with
    | nil => exact absurd rfl hdne
    | cons a as =>
      intro c hc
      simp only [List.cons_append, List.head?_cons, Option.some.injEq] at hc
      rw [← hc]
      exact digit_not_ws a (hdall a (List.mem_cons_self _ _))
  have e2 := takeWhile_append_stop s (d ++ (':' :: (ows ++ ft))) hsall hdhead
  have hchead : ∀ c, ((':' :: (ows ++ ft)) : List Char).head? = some c → isDigitChar c = false := by
    intro c hc
    simp only [List.head?_cons, Option.some.injEq] at hc
    rw [← hc]
    decide
  have e3 := takeWhile_append_stop d (':' :: (ows ++ ft)) hdall hchead
  obtain ⟨g, hg, hgtrim⟩ := matchFreeText_append_ws ows ft howall hftne hftlt
  refine ⟨g, ?_, hgtrim⟩
  simp only [matchWorkItemText]
  rw [e1.1, e1.2, e2.1, e2.2, e3.1, e3.2]
  rw [if_neg (by simpa using hwne), if_neg (by simpa using hsne), if_neg (by simpa using hdne)]
  simp [hg]

/-- C6: the Extractor returns a structured record exactly when its input
matches word-token, whitespace, digit run, colon, optional whitespace,
free text — the digit run is the identifier and the trimmed trailing
free text is the label — and it returns no match otherwise; in
particular the text Bug 4821 colon Crash on save yields identifier 4821
and label Crash on save, and the text Malformed line yields no match. -/
theorem extractor_pattern_characterization (text d ft g2 : List Char) :
    (matchWorkItemText text = some (d, g2) → PatternDecomp text d g2)
    ∧ (PatternDecomp text d ft →
        ∃ g, matchWorkItemText text = some (d, g) ∧ jsTrimList g = jsTrimList ft)
    ∧ getWorkItemFromDialog ⟨some ⟨some "Bug 4821: Crash on save"⟩⟩ =
        some ⟨"4821", "Crash on save"⟩
    ∧ getWorkItemFromDialog ⟨some ⟨some "Malformed line"⟩⟩ = none :=
  ⟨matchWorkItemText_some text d g2, matchWorkItemText_of_decomp text d ft,
    by decide, by decide⟩

/-- C6 witness. -/
theorem extractor_pattern_characterization_witness :
    PatternDecomp ("Bug 4821: Crash on save").data ("4821").data ("Crash on save").data :=
  (extractor_pattern_characterization ("Bug 4821: Crash on save").data ("4821").data
    ("Crash on save").data ("Crash on save").data).1 (by decide)
